import Mathlib

/-!
Verification of the untyped lambda-calculus engine in `lambda.py`.

The Python classes `Variable`, `Application`, `Function` become the three
constructors of the inductive type `Term`; a `Variable`'s identity is its
name string, and `Function.arg` (a `Variable` object in Python) is embedded
as the parameter's name.  Every method of the three classes is translated
to a function on `Term` following the Python dispatch structure case by
case.  The parser (`lex`, `build_application`, `apply_stack`, `parse`) is
embedded below with an explicit stack of entries, mirroring the Python
list that holds raw token strings, built terms, and `None`.
-/

/-- The AST: Python classes Variable / Application / Function. -/
inductive Term where
  | var (name : String)
  | app (left : Term) (right : Term)
  | fn (arg : String) (body : Term)
deriving DecidableEq

namespace Term

/-- `Variable.search` / `Application.search` / `Function.search`: true iff
`v` occurs free in the term.  `Function.search` requires `self.arg != var`
before searching the body. -/
def search : Term → String → Bool
  | var n, v => n == v
  | app l r, v => l.search v || r.search v
  | fn a b, v => a != v && b.search v

/-- All names occurring at `var` nodes reachable by `search` (the binder
name of `fn` is dropped because `search` under a binder requires the
searched name to differ from it).  Used only to bound the fresh-name loop. -/
def namesList : Term → List String
  | var n => [n]
  | app l r => namesList l ++ namesList r
  | fn _ b => namesList b

/-- Node count; the fuel measure for the substitution recursion. -/
def size : Term → Nat
  | var _ => 1
  | app l r => size l + size r + 1
  | fn _ b => size b + 1

/-- `Variable.unpack_saved` / `Application.unpack_saved` /
`Function.unpack_saved`: replace saved variables by their stored values;
an abstraction whose parameter is a key of the environment is returned
unchanged.  The Python dict keyed by `Variable` (hash and equality by
name) is embedded as an association list keyed by name. -/
def unpack_saved : Term → List (String × Term) → Term
  | var n, saved =>
      match saved.lookup n with
      | some t => t
      | none => var n
  | app l r, saved => app (l.unpack_saved saved) (r.unpack_saved saved)
  | fn a b, saved =>
      if (saved.lookup a).isSome then fn a b
      else fn a (b.unpack_saved saved)

/-- Python dict assignment `d[k] = v` after `d.copy()`: embedded as a
prepend; `List.lookup` takes the most recent binding, like the dict. -/
def dictInsert (d : List (String × String)) (k v : String) : List (String × String) :=
  (k, v) :: d

/-- `Variable.is_eta_equiv` / `Application.is_eta_equiv` /
`Function.is_eta_equiv` with the correspondence dict `var_dict`.
Mismatched node kinds are `false` (the `isinstance` checks). -/
def is_eta_equiv : Term → Term → List (String × String) → Bool
  | var n, var m, d =>
      -- self == other or self in var_dict and var_dict[self] == other
      n == m || (match d.lookup n with
                 | some w => w == m
                 | none => false)
  | var _, app _ _, _ => false
  | var _, fn _ _, _ => false
  | app l r, app l2 r2, d => l.is_eta_equiv l2 d && r.is_eta_equiv r2 d
  | app _ _, var _, _ => false
  | app _ _, fn _ _, _ => false
  | fn a b, fn a2 b2, d =>
      -- if the arguments differ, extend a copy of the dict with a ↦ a2
      b.is_eta_equiv b2 (if a != a2 then dictInsert d a a2 else d)
  | fn _ _, var _, _ => false
  | fn _ _, app _ _, _ => false

end Term

/-- The prime character that Python appends to a name during the
fresh-name loop, `Variable(arg.name + "'")`. -/
def primeChar : Char := Char.ofNat 39

/-- The fresh-name `while` loop of `Function.substitute`:
`while replace.search(arg): arg = Variable(arg.name + "'")`.
Each iteration appends one prime.  The loop is embedded with fuel; the
lemma `freshAux_not_free` below shows the fuel used by `freshName` always
suffices to reach a name that is not free in `rep`, so the fueled
function computes exactly what the Python loop computes. -/
def freshAux : Nat → Term → String → String
  | 0, _, a => a
  | f + 1, rep, a =>
      if rep.search a then freshAux f rep (a.push primeChar) else a

/-- The fresh name chosen by `Function.substitute` for parameter `a`
against replacement `rep`: the first of `a`, `a'`, `a''`, … that is not
free in `rep`.  Candidate names strictly grow in length, so at most
`(Term.namesList rep).length` of them can be free in `rep`. -/
def freshName (rep : Term) (a : String) : String :=
  freshAux ((Term.namesList rep).length + 1) rep a

/-- `Variable.substitute` / `Application.substitute` /
`Function.substitute`, with fuel for the nested recursion of the
`Function` case (the alpha-conversion substitutes inside `body`, and the
result — of the same size, see `substF_rename_size` — is substituted into
again).  `substitute` below supplies fuel `Term.size t`, which the size
lemmas show is always sufficient, so the fueled recursion computes
exactly what the Python recursion computes. -/
def substF : Nat → Term → String → Term → Term
  | 0, t, _, _ => t
  | _ + 1, Term.var y, find, rep =>
      -- x[x := R] => R ; y[x := R] => y
      if y == find then rep else Term.var y
  | f + 1, Term.app l r, find, rep =>
      -- (M N)[x := R] => (M[x := R] N[x := R])
      Term.app (substF f l find rep) (substF f r find rep)
  | f + 1, Term.fn a b, find, rep =>
      -- (λx.M)[x := R] => λx.M
      if a == find then Term.fn a b
      else
        -- find a free variable in R, then alpha convert
        let a2 := freshName rep a
        let b2 := if a2 != a then substF f b a (Term.var a2) else b
        -- (λy.M)[x := R] => λy.(M[x := R])
        Term.fn a2 (substF f b2 find rep)

/-- `Term.substitute(find, replace)` of `lambda.py`. -/
def substitute (t : Term) (find : String) (rep : Term) : Term :=
  substF (Term.size t) t find rep

/-- A name found free by `search` occurs in `namesList`. -/
theorem search_mem_namesList (t : Term) (v : String) :
    t.search v = true → v ∈ Term.namesList t := by
  induction t with
  | var n =>
      intro h
      simp only [Term.search, beq_iff_eq] at h
      simp [Term.namesList, h]
  | app l r ihl ihr =>
      intro h
      simp only [Term.search, Bool.or_eq_true] at h
      rcases h with h | h
      · exact List.mem_append_left _ (ihl h)
      · exact List.mem_append_right _ (ihr h)
  | fn a b ihb =>
      intro h
      simp only [Term.search, Bool.and_eq_true] at h
      exact ihb h.2

/-- Filtering with a stronger predicate keeps at most as many elements. -/
theorem length_filter_mono {l : List String} {p q : String → Bool}
    (hpq : ∀ x, p x = true → q x = true) :
    (l.filter p).length ≤ (l.filter q).length := by
  induction l with
  | nil => simp
  | cons x xs ih =>
      rw [List.filter_cons, List.filter_cons]
      cases hp : p x
      · cases hq : q x
        · exact ih
        · simpa using Nat.le_succ_of_le ih
      · rw [hpq x hp]
        simpa using Nat.succ_le_succ ih

/-- Strictly fewer names of length at least `a.length + 1` than of length
at least `a.length` remain available once `a` itself is free. -/
theorem length_filter_lt_of_mem_not {l : List String} {p q : String → Bool}
    (hpq : ∀ x, p x = true → q x = true) {a : String}
    (ha : a ∈ l) (hqa : q a = true) (hpa : p a = false) :
    (l.filter p).length < (l.filter q).length := by
  induction l with
  | nil => cases ha
  | cons x xs ih =>
      rcases List.mem_cons.mp ha with rfl | hmem
      · rw [List.filter_cons, List.filter_cons, hqa, hpa]
        simp only [List.length_cons]
        exact Nat.lt_succ_of_le (length_filter_mono hpq)
      · rw [List.filter_cons, List.filter_cons]
        cases hp : p x
        · cases hq : q x
          · exact ih hmem
          · simp only [List.length_cons]
            exact Nat.lt_succ_of_lt (ih hmem)
        · rw [hpq x hp]
          simpa using Nat.succ_lt_succ (ih hmem)

/-- With enough fuel — more than the number of free-name candidates left —
the fresh-name loop reaches a name not free in `rep`. -/
theorem freshAux_not_free :
    ∀ (f : Nat) (rep : Term) (a : String),
      ((Term.namesList rep).filter (fun n => a.length ≤ n.length)).length < f →
      rep.search (freshAux f rep a) = false := by
  intro f
  induction f with
  | zero => intro rep a h; omega
  | succ f ih =>
      intro rep a h
      rw [freshAux]
      cases hs : rep.search a
      · simpa using hs
      · apply ih
        have hlen : (a.push primeChar).length = a.length + 1 := by
          simp [String.length_push]
        have hstep :
            ((Term.namesList rep).filter
              (fun n => (a.push primeChar).length ≤ n.length)).length <
            ((Term.namesList rep).filter (fun n => a.length ≤ n.length)).length := by
          apply length_filter_lt_of_mem_not
            (p := fun n => (a.push primeChar).length ≤ n.length)
            (q := fun n => a.length ≤ n.length)
            (a := a)
          · intro x hx
            simp only [decide_eq_true_eq] at hx ⊢
            omega
          · exact search_mem_namesList rep a hs
          · simp
          · simp only [hlen, decide_eq_false_iff_not]
            omega
        omega

/-- The name chosen by the fresh-name loop is never free in the
replacement term. -/
theorem freshName_not_free (rep : Term) (a : String) :
    rep.search (freshName rep a) = false := by
  apply freshAux_not_free
  have hle : ((Term.namesList rep).filter (fun n => a.length ≤ n.length)).length
      ≤ (Term.namesList rep).length := List.length_filter_le _ _
  omega

/-- Every term has positive size. -/
theorem size_pos (t : Term) : 1 ≤ Term.size t := by
  cases t <;> simp [Term.size]

/-- Renaming (substituting a variable for a variable) preserves size:
this is what makes the fuel `Term.size t` of `substitute` sufficient for
the nested recursion of the `Function` case, so the fueled `substF`
computes exactly the Python recursion (which always terminates). -/
theorem substF_rename_size :
    ∀ (n : Nat) (t : Term), Term.size t ≤ n →
      ∀ (f : Nat) (find w : String), Term.size t ≤ f →
        Term.size (substF f t find (Term.var w)) = Term.size t := by
  intro n
  induction n with
  | zero => intro t ht; have := size_pos t; omega
  | succ n ih =>
      intro t ht f find w hf
      cases t with
      | var y =>
          cases f with
          | zero => simp [Term.size] at hf
          | succ f =>
              rw [substF]
              by_cases h : y == find
              · rw [if_pos h]; simp [Term.size]
              · rw [if_neg h]
      | app l r =>
          cases f with
          | zero => simp [Term.size] at hf
          | succ f =>
              rw [substF]
              simp only [Term.size] at ht hf ⊢
              have hl := ih l (by omega) f find w (by omega)
              have hr := ih r (by omega) f find w (by omega)
              omega
      | fn a b =>
          cases f with
          | zero => simp [Term.size] at hf
          | succ f =>
              rw [substF]
              by_cases h : a == find
              · rw [if_pos h]
              · rw [if_neg h]
                simp only [Term.size] at ht hf ⊢
                set a2 := freshName (Term.var w) a with ha2
                by_cases hr : a2 != a
                · rw [if_pos hr]
                  have hb : Term.size (substF f b a (Term.var a2)) = Term.size b :=
                    ih b (by omega) f a a2 (by omega)
                  have := ih (substF f b a (Term.var a2)) (by omega) f find w (by omega)
                  omega
                · rw [if_neg hr]
                  have := ih b (by omega) f find w (by omega)
                  omega

/-- Any fuel of at least `Term.size t` computes the same result: the
fueled embedding does not depend on the particular fuel chosen. -/
theorem substF_fuel_irrelevant :
    ∀ (n : Nat) (t : Term), Term.size t ≤ n →
      ∀ (f : Nat) (find : String) (rep : Term), Term.size t ≤ f →
        substF f t find rep = substitute t find rep := by
  intro n
  induction n with
  | zero => intro t ht; have := size_pos t; omega
  | succ n ih =>
      intro t ht f find rep hf
      cases t with
      | var y =>
          cases f with
          | zero => simp [Term.size] at hf
          | succ f => rw [substF, substitute, Term.size, substF]
      | app l r =>
          cases f with
          | zero => simp [Term.size] at hf
          | succ f =>
              rw [substF, substitute, Term.size]
              simp only [Term.size] at ht hf
              rw [substF]
              rw [ih l (by omega) f find rep (by omega),
                  ih r (by omega) f find rep (by omega),
                  ih l (by omega) (Term.size l + Term.size r) find rep (by omega),
                  ih r (by omega) (Term.size l + Term.size r) find rep (by omega)]
      | fn a b =>
          cases f with
          | zero => simp [Term.size] at hf
          | succ f =>
              simp only [Term.size] at ht hf
              rw [substF, substitute, Term.size, substF]
              by_cases h : a == find
              · rw [if_pos h, if_pos h]
              · rw [if_neg h, if_neg h]
                simp only
                set a2 := freshName rep a with ha2
                by_cases hr : a2 != a
                · rw [if_pos hr, if_pos hr]
                  rw [ih b (by omega) f a (Term.var a2) (by omega),
                      ih b (by omega) (Term.size b) a (Term.var a2) (le_refl _)]
                  have hsz : Term.size (substitute b a (Term.var a2)) = Term.size b := by
                    rw [substitute]
                    exact substF_rename_size (Term.size b) b (le_refl _) (Term.size b) a a2
                      (le_refl _)
                  rw [ih (substitute b a (Term.var a2)) (by omega) f find rep (by omega),
                      ih (substitute b a (Term.var a2)) (by omega) (Term.size b) find rep
                        (by omega)]
                · rw [if_neg hr, if_neg hr]
                  rw [ih b (by omega) f find rep (by omega),
                      ih b (by omega) (Term.size b) find rep (le_refl _)]

/-- `Variable.substitute`: `x[x := R] => R`, `y[x := R] => y`. -/
theorem substitute_var_eq (y find : String) (rep : Term) :
    substitute (Term.var y) find rep = if y == find then rep else Term.var y := by
  rw [substitute, Term.size, substF]

/-- `Application.substitute` recursion equation: substitution applied
independently to both children. -/
theorem substitute_app_eq (l r : Term) (find : String) (rep : Term) :
    substitute (Term.app l r) find rep
      = Term.app (substitute l find rep) (substitute r find rep) := by
  rw [substitute, Term.size, substF]
  rw [substF_fuel_irrelevant (Term.size l + Term.size r) l (by omega) _ find rep (by omega),
      substF_fuel_irrelevant (Term.size l + Term.size r) r (by omega) _ find rep (by omega)]

/-- `Function.substitute` recursion equation: shadowed parameter returns
the abstraction unchanged; otherwise the parameter is replaced by the
fresh name (renaming the body when the name changed) and the outer
substitution recurses into the body. -/
theorem substitute_fn_eq (a : String) (b : Term) (find : String) (rep : Term) :
    substitute (Term.fn a b) find rep
      = if a == find then Term.fn a b
        else
          Term.fn (freshName rep a)
            (substitute
              (if freshName rep a != a then substitute b a (Term.var (freshName rep a)) else b)
              find rep) := by
  rw [substitute, Term.size, substF]
  by_cases h : a == find
  · rw [if_pos h, if_pos h]
  · rw [if_neg h, if_neg h]
    simp only
    set a2 := freshName rep a with ha2
    by_cases hr : a2 != a
    · rw [if_pos hr, if_pos hr]
      rw [substF_fuel_irrelevant (Term.size b) b (le_refl _) _ a (Term.var a2) (le_refl _)]
      have hsz : Term.size (substitute b a (Term.var a2)) = Term.size b := by
        rw [substitute]
        exact substF_rename_size (Term.size b) b (le_refl _) (Term.size b) a a2 (le_refl _)
      rw [substF_fuel_irrelevant (Term.size b) (substitute b a (Term.var a2)) (by omega) _
            find rep (by omega)]
    · rw [if_neg hr, if_neg hr]
      rfl

/-- The name `a'` (one prime appended to `a`). -/
def nameAP : String := "a".push primeChar

/-- The name `a''` (two primes appended to `a`). -/
def nameAPP : String := nameAP.push primeChar

/-- Claim C1 (code bug evidence): substitution is not capture-avoiding.
On `M = λa.λa'.a''` with target `a''` and replacement `Variable a`, the
target `a''` is free in `M` and `a` is free in the replacement, yet the
code returns `λa'.λa''.a''`: the cascading alpha-rename rebinds the inner
parameter to `a''`, capturing the free occurrence of the target, and the
replacement `a` is never inserted — the result has neither `a` nor `a''`
free, contradicting the claimed absence of variable capture. -/
theorem c1_capture_failing_input :
    Term.search (Term.fn "a" (Term.fn nameAP (Term.var nameAPP))) nameAPP = true
    ∧ Term.search (Term.var "a") "a" = true
    ∧ substitute (Term.fn "a" (Term.fn nameAP (Term.var nameAPP))) nameAPP (Term.var "a")
        = Term.fn nameAP (Term.fn nameAPP (Term.var nameAPP))
    ∧ Term.search
        (substitute (Term.fn "a" (Term.fn nameAP (Term.var nameAPP))) nameAPP (Term.var "a"))
        "a" = false
    ∧ Term.search
        (substitute (Term.fn "a" (Term.fn nameAP (Term.var nameAPP))) nameAPP (Term.var "a"))
        nameAPP = false := by
  refine ⟨by decide, by decide, by decide, by decide, by decide⟩

/-- The name `x'` (one prime appended to `x`). -/
def nameXP : String := "x".push primeChar

/-- Claim C2 (counterexample): substituting into the abstraction `λx.x`
with target `x'` and replacement `Variable x` does alpha-rename the
parameter (the fresh name `x'` differs from the original parameter `x`),
but the fresh name chosen equals the target `x'` — refuting the clause
that the fresh name is never equal to the name being substituted.  The
damage is visible in the result: `(λx.x)[x' := x]` returns `λx'.x`, no
longer the identity function. -/
theorem c2_counterexample :
    freshName (Term.var "x") "x" ≠ "x"
    ∧ freshName (Term.var "x") "x" = nameXP
    ∧ substitute (Term.fn "x" (Term.var "x")) nameXP (Term.var "x")
        = Term.fn nameXP (Term.var "x") := by
  refine ⟨by decide, by decide, by decide⟩

/-- Claim C2 (amended): whenever `substitute` alpha-renames an
abstraction's parameter, the freshly chosen bound name is not free in the
replacement term; equality with the substituted name is not prevented.
The fresh name is `freshName rep a`, which is never free in `rep`. -/
theorem c2_amended_fresh_not_free (rep : Term) (a : String) :
    rep.search (freshName rep a) = false :=
  freshName_not_free rep a

/-- `Variable.step` / `Application.step` / `Function.step`: one
normal-order reduction attempt, returning the new term and whether a beta
reduction occurred.  `Application.step` beta-reduces immediately when its
left child is a `Function`; otherwise it steps the left child, and only if
that did not change steps the right child. -/
def step : Term → Term × Bool
  | .var n =>
      -- running variables does nothing
      (.var n, false)
  | .fn a b =>
      -- run the body
      let s := step b
      (.fn a s.1, s.2)
  | .app l r =>
    match l with
    | .fn a b =>
        -- beta reduce functions
        (substitute b a r, true)
    | _ =>
      -- run left node
      let sl := step l
      if sl.2 then (.app sl.1 r, true)
      else
        -- run right node
        let sr := step r
        (.app sl.1 sr.1, sr.2)

/-- When `step` reports no change, the returned term is the argument
itself (the rebuilt tree is structurally identical). -/
theorem step_unchanged : ∀ (t t2 : Term), step t = (t2, false) → t2 = t := by
  intro t
  induction t with
  | var n =>
      intro t2 h
      simp only [step, Prod.mk.injEq] at h
      exact h.1.symm
  | app l r ihl ihr =>
      intro t2 h
      rcases hsl : step l with ⟨sl1, slc⟩
      rcases hsr : step r with ⟨sr1, src⟩
      cases l with
      | fn a b => simp [step] at h
      | var n =>
          rw [show step ((Term.var n).app r)
                = if (step (Term.var n)).2 then (Term.app (step (Term.var n)).1 r, true)
                  else (Term.app (step (Term.var n)).1 (step r).1, (step r).2) from rfl,
              hsl, hsr] at h
          cases slc with
          | true => simp at h
          | false =>
              rw [if_neg Bool.false_ne_true] at h
              simp only [Prod.mk.injEq] at h
              rw [← h.1, ihl sl1 hsl, ihr sr1 (h.2 ▸ hsr)]
      | app l1 l2 =>
          rw [show step ((Term.app l1 l2).app r)
                = if (step (Term.app l1 l2)).2 then (Term.app (step (Term.app l1 l2)).1 r, true)
                  else (Term.app (step (Term.app l1 l2)).1 (step r).1, (step r).2) from rfl,
              hsl, hsr] at h
          cases slc with
          | true => simp at h
          | false =>
              rw [if_neg Bool.false_ne_true] at h
              simp only [Prod.mk.injEq] at h
              rw [← h.1, ihl sl1 hsl, ihr sr1 (h.2 ▸ hsr)]
  | fn a b ihb =>
      intro t2 h
      rcases hsb : step b with ⟨sb1, sbc⟩
      rw [show step (Term.fn a b) = (Term.fn a (step b).1, (step b).2) from rfl, hsb] at h
      simp only [Prod.mk.injEq] at h
      rw [← h.1, ihb sb1 (h.2 ▸ hsb)]

/-- Claim C3 (counterexample): one step on `(λx.x x) ((λy.y) z)` does NOT
yield `(λx.x x) z`: the left child of the application is itself an
abstraction, so `Application.step` performs the top-level beta reduction
instead of reducing inside the argument. -/
theorem c3_counterexample :
    step (Term.app (Term.fn "x" (Term.app (Term.var "x") (Term.var "x")))
        (Term.app (Term.fn "y" (Term.var "y")) (Term.var "z")))
      ≠ (Term.app (Term.fn "x" (Term.app (Term.var "x") (Term.var "x"))) (Term.var "z"),
         true) := by
  decide

/-- Claim C3 (amended): one step on `(λx.x x) ((λy.y) z)` fires the
top-level beta redex and yields `((λy.y) z) ((λy.y) z)` with
`changed = true` (the unevaluated argument is duplicated); one step on
`((λx.x) a) ((λy.y) b)` yields `a ((λy.y) b)` with `changed = true`
(the left side reduces first), as the claim states. -/
theorem c3_amended_steps :
    step (Term.app (Term.fn "x" (Term.app (Term.var "x") (Term.var "x")))
        (Term.app (Term.fn "y" (Term.var "y")) (Term.var "z")))
      = (Term.app (Term.app (Term.fn "y" (Term.var "y")) (Term.var "z"))
           (Term.app (Term.fn "y" (Term.var "y")) (Term.var "z")), true)
    ∧ step (Term.app (Term.app (Term.fn "x" (Term.var "x")) (Term.var "a"))
        (Term.app (Term.fn "y" (Term.var "y")) (Term.var "b")))
      = (Term.app (Term.var "a")
           (Term.app (Term.fn "y" (Term.var "y")) (Term.var "b")), true) := by
  refine ⟨by decide, by decide⟩

/-- Claim C4: normal forms are fixed points of `step` — whenever
`t.step()` returns `(t2, false)`, calling `step` on `t2` again returns
`(t2, false)`. -/
theorem c4_normal_form_fixed_point (t t2 : Term) (h : step t = (t2, false)) :
    step t2 = (t2, false) := by
  rw [step_unchanged t t2 h]
  rw [step_unchanged t t2 h] at h
  exact h

/-- Witness for C4 at the concrete normal form `λx.x`. -/
theorem c4_normal_form_fixed_point_witness :
    step (Term.fn "x" (Term.var "x")) = (Term.fn "x" (Term.var "x"), false) :=
  c4_normal_form_fixed_point (Term.fn "x" (Term.var "x")) (Term.fn "x" (Term.var "x"))
    (by decide)



/-- Python `"'"`: the quote used in the interpreter's error messages
(`"Syntax error: unexpected '%s'"` and friends). -/
def q (s : String) : String := primeChar.toString ++ s ++ primeChar.toString

/-- `Variable.__repr__` / `Application.__repr__` / `Function.__repr__`:
the printer, used by the parser only inside the `invalid argument %r`
message.  `Application` parenthesises a `Function` on the left and
anything but a `Variable` on the right; `Function` groups the arguments
of a directly nested abstraction by splitting the body's text on `.`. -/
def pyReprTerm : Term → String
  | .var n => n
  | .app l r =>
      let ls := match l with
        | .fn _ _ => "(" ++ pyReprTerm l ++ ")"
        | _ => pyReprTerm l
      let rs := match r with
        | .var _ => pyReprTerm r
        | _ => "(" ++ pyReprTerm r ++ ")"
      ls ++ " " ++ rs
  | .fn a b =>
      match b with
      | .fn _ _ =>
          let bs := pyReprTerm b
          let parts := bs.splitOn "."
          let args := (parts.headD "").drop 1
          "λ" ++ a ++ " " ++ args ++ "." ++ String.intercalate "." (parts.drop 1)
      | _ => "λ" ++ a ++ "." ++ pyReprTerm b

/-- Python `repr` of a raw token string: single-quoted, or double-quoted
when the token contains a quote character (escaping of exotic tokens is
not modelled; the tokens that can reach `%r` are `.` and `(`). -/
def pyReprStr (s : String) : String :=
  if s.contains primeChar && !(s.contains '"') then "\"" ++ s ++ "\"" else q s

/-- One slot of the Python parser stack: a raw token string, a built
`Term`, Python `None` (pushed for an empty group `()`), or an ill-formed
Python object such as `Function(v, None)` — `junkE` records only whether
that object is a `Function` instance, which is all the parser ever asks
of it. -/
inductive Entry where
  | tok (s : String)
  | tm (t : Term)
  | noneE
  | junkE (isFn : Bool)
deriving DecidableEq

/-- The value of the local `built` in `build_application` / `apply_stack`:
`None`, a `Term`, or an ill-formed object (again tagged with whether it is
a `Function` instance, for the `isinstance(built, Function)` test). -/
inductive BVal where
  | noneB
  | tmB (t : Term)
  | junkB (isFn : Bool)
deriving DecidableEq

/-- `%r` of a stack entry (Python calls `repr` on whatever object sits in
the slot).  The `junkE` text is a placeholder: no claim input reaches it. -/
def pyReprEntry : Entry → String
  | .tok s => pyReprStr s
  | .tm t => pyReprTerm t
  | .noneE => "None"
  | .junkE _ => "<junk>"

/-- One iteration of `build_application`'s loop:
`if built is None: built = expr; else: built = Application(built, expr)`.
Combining with a raw token or `None` on the right builds an ill-formed
`Application`, recorded as junk. -/
def combineBuilt : BVal → Entry → BVal
  | .noneB, .tm t => .tmB t
  | .noneB, .noneE => .noneB
  | .noneB, .tok _ => .junkB false
  | .noneB, .junkE f => .junkB f
  | .tmB t, .tm u => .tmB (Term.app t u)
  | .tmB _, _ => .junkB false
  | .junkB _, _ => .junkB false

/-- `build_application(stack, start_index)`: left-associative application
chain of the entries above `start_index` (here passed directly as the
slice, the caller retaining the part below). -/
def build_application (entries : List Entry) : BVal :=
  entries.foldl combineBuilt .noneB

/-- Pushing `built` back onto the Python stack. -/
def entryOfBVal : BVal → Entry
  | .noneB => .noneE
  | .tmB t => .tm t
  | .junkB f => .junkE f

/-- `built = Function(stack.pop(), built)` of the lambda-argument mode:
wrapping `None` (or junk) produces an ill-formed object that is
nevertheless a `Function` instance. -/
def fnWrap (v : String) : BVal → BVal
  | .tmB t => .tmB (.fn v t)
  | .noneB => .junkB true
  | .junkB _ => .junkB true

/-- `isinstance(built, Function)`. -/
def bvalIsFunction : BVal → Bool
  | .tmB (.fn _ _) => true
  | .junkB f => f
  | _ => false

/-- Result of `apply_stack`: an error-message string, or the built value
together with the mutated stack. -/
inductive ASRes where
  | err (msg : String)
  | done (b : BVal) (stack : List Entry)
deriving DecidableEq

/-- The loop `for i in range(len(stack))[::-1]` of `apply_stack`,
walking the stack from the top down.  The first argument is the part of
the stack not yet visited, topmost first; `kept` holds the entries
already visited and left in place (in original bottom-to-top order) —
exactly the slice `stack[i+1:]` that `build_application` consumes; the
pops of the Python loop keep `stack[i]` the next unvisited entry, so the
walk never indexes out of range.  On `(` the function returns with the
remaining stack (the `(` still on top); at the end of the walk a pending
lambda means a stray dot, and otherwise everything left is folded into
one application chain (the final `return built` of the Python code is
unreachable — `built` is only non-`None` while `checking_lambda_args` —
but is kept as the last `done` below). -/
def asLoop : List Entry → List Entry → BVal → Bool → ASRes
  | [], kept, built, checking =>
      if checking then .err ("Syntax error: unexpected " ++ q ".")
      else if built == .noneB then .done (build_application kept) []
      else .done built kept
  | e :: rest, kept, built, checking =>
      if checking then
        -- between λ and . should be only variables
        match e with
        | .tm (Term.var v) => asLoop rest kept (fnWrap v built) true
        | .tok s =>
            if s == "\\" || s == "λ" then
              -- if a function was not built, then λ. happened
              if bvalIsFunction built then
                -- push the new function and exit lambda-arg mode
                asLoop rest (kept ++ [entryOfBVal built]) .noneB false
              else .err ("Syntax error: " ++ q s ++ " followed by " ++ q ".")
            else .err ("Syntax error: invalid argument " ++ pyReprEntry e)
        | _ => .err ("Syntax error: invalid argument " ++ pyReprEntry e)
      else
        match e with
        | .tok "(" =>
            -- left parenthesis forces application building
            .done (build_application kept) ((e :: rest).reverse)
        | .tok "." =>
            -- enter lambda-arg mode
            asLoop rest [] (build_application kept) true
        | .tok s =>
            if s == "\\" || s == "λ" then
              -- stray lambdas should not be allowed
              .err ("Syntax error: unexpected " ++ q s)
            else asLoop rest (e :: kept) built checking
        | _ => asLoop rest (e :: kept) built checking

/-- `apply_stack(stack)` of `lambda.py`. -/
def apply_stack (stack : List Entry) : ASRes :=
  asLoop stack.reverse [] .noneB false

/-- Running-mode constants of `lambda.py`. -/
def LAMBDA_MODE_NONE : Nat := 0

/-- Mode bit for the `run` command. -/
def LAMBDA_MODE_RUN : Nat := 1

/-- Mode bit for a `name = term` binding. -/
def LAMBDA_MODE_SET : Nat := 2

/-- Mode bit for the `step` command. -/
def LAMBDA_MODE_STEP : Nat := 4

/-- Mode bit for a syntax error. -/
def LAMBDA_MODE_ERR : Nat := 8

/-- The characters `(`, `)`, `.`, `\`, `λ`, `=` emitted as standalone
tokens by the lexer (`c in '().\\λ='`). -/
def specialChar (c : Char) : Bool :=
  c == '(' || c == ')' || c == '.' || c == '\\' || c == 'λ' || c == '='

/-- The generator `lex(string)`: special characters flush the pending
symbol and are emitted alone; space and tab flush and are dropped; `;`
flushes and stops the scan (comment); anything else grows the pending
symbol, flushed at the end of input. -/
def lexAux : List Char → String → List String
  | [], tk => if tk != "" then [tk] else []
  | c :: cs, tk =>
      if specialChar c then
        (if tk != "" then [tk] else []) ++ [String.singleton c] ++ lexAux cs ""
      else if c == ' ' || c == '\t' then
        (if tk != "" then [tk] else []) ++ lexAux cs ""
      else if c == ';' then
        (if tk != "" then [tk] else [])
      else lexAux cs (tk.push c)

/-- `lex` over the characters of the input string. -/
def lex (s : String) : List String := lexAux s.data ""

/-- The local state of `parse`'s token loop.  `insideLambda` is assigned
by the Python code but never read; it is carried for faithfulness. -/
structure PSt where
  stack : List Entry
  insideLambda : Bool
  mode : Nat
  varName : Option String
deriving DecidableEq

/-- The first component of `parse`'s return value: an error-message
string, a term, Python `None`, or an ill-formed object (unreachable on
the inputs considered here). -/
inductive POut where
  | errP (msg : String)
  | tmP (t : Term)
  | noneP
  | junkP
deriving DecidableEq

/-- The token loop of `parse`: `inl` is an early `return` with the error
message and mode, `inr` the state after consuming all tokens.  The Python
dispatch uses substring tests (`token in '('`, `token in '\\λ.'`), which
for tokens produced by `lex` (never empty, special characters always
alone) coincide with the equality tests used here. -/
def parseLoop : List String → PSt → (POut × Nat) ⊕ PSt
  | [], st => .inr st
  | token :: ts, st =>
      if token == "(" then
        -- push left parentheses onto the stack
        parseLoop ts { st with stack := st.stack ++ [.tok token] }
      else if token == "\\" || token == "λ" || token == "." then
        -- push lambdas and dots onto the stack and change the lambda mode
        parseLoop ts { st with stack := st.stack ++ [.tok token],
                               insideLambda := token != "." }
      else if token == ")" then
        -- apply everything on the stack until the first left parenthesis
        match apply_stack st.stack with
        | .err m => .inl (.errP m, LAMBDA_MODE_ERR)
        | .done b newStack =>
            if newStack.length == 0 then
              -- no left parenthesis found
              .inl (.errP ("Syntax error: unexpected " ++ q ")"), LAMBDA_MODE_ERR)
            else
              -- pop the parenthesis and push the built expression
              parseLoop ts { st with stack := newStack.dropLast ++ [entryOfBVal b] }
      else if token == "run" then
        if st.stack.length == 0 && (st.mode &&& LAMBDA_MODE_STEP) == 0 then
          parseLoop ts { st with mode := st.mode ||| LAMBDA_MODE_RUN }
        else .inl (.errP ("Syntax error: unexpected " ++ q "run"), LAMBDA_MODE_ERR)
      else if token == "step" then
        if st.stack.length == 0 && (st.mode &&& LAMBDA_MODE_RUN) == 0 then
          parseLoop ts { st with mode := st.mode ||| LAMBDA_MODE_STEP }
        else
          -- the Python code reuses the 'run' message here
          .inl (.errP ("Syntax error: unexpected " ++ q "run"), LAMBDA_MODE_ERR)
      else if token == "=" then
        -- only legal with exactly one Variable on the stack
        match st.stack with
        | [.tm (Term.var v)] =>
            parseLoop ts { st with mode := st.mode ||| LAMBDA_MODE_SET,
                                   varName := some v, stack := [] }
        | _ => .inl (.errP ("Syntax error: unexpected " ++ q "="), LAMBDA_MODE_ERR)
      else
        -- push symbols onto the stack
        parseLoop ts { st with stack := st.stack ++ [.tm (Term.var token)] }

/-- `parse(string)` of `lambda.py`: run the token loop, apply the
remaining stack, then the error checks and the SET-mode carrier
construction (`Application(var_name, built)`). -/
def parse (s : String) : POut × Nat :=
  match parseLoop (lex s) ⟨[], false, LAMBDA_MODE_NONE, none⟩ with
  | .inl out => out
  | .inr st =>
      match apply_stack st.stack with
      | .err m =>
          -- `isinstance(built, str)`: some error occurred
          (.errP m, LAMBDA_MODE_ERR)
      | .done b finalStack =>
          if finalStack.length > 0 then
            -- unmatched parenthesis error
            (.errP ("Syntax error: unmatched " ++ q "("), LAMBDA_MODE_ERR)
          else if (st.mode &&& LAMBDA_MODE_SET) != 0 then
            match b with
            | .noneB =>
                -- a bare binding such as `x =` is illegal
                (.errP ("Syntax error: unexpected " ++ q "="), LAMBDA_MODE_ERR)
            | .tmB t =>
                match st.varName with
                | some v => (.tmP (Term.app (Term.var v) t), st.mode)
                | none => (.junkP, st.mode)
            | .junkB _ => (.junkP, st.mode)
          else
            -- expression or run
            match b with
            | .noneB => (.noneP, st.mode)
            | .tmB t => (.tmP t, st.mode)
            | .junkB _ => (.junkP, st.mode)

/-- Claim C7: with environment {x: a}, `unpack_saved` leaves `λx.x`
unchanged (rewriting suppressed under the shadowing binder) and rewrites
`x y` to `a y`. -/
theorem c7_unpack_saved_shadowing :
    Term.unpack_saved (Term.fn "x" (Term.var "x")) [("x", Term.var "a")]
      = Term.fn "x" (Term.var "x")
    ∧ Term.unpack_saved (Term.app (Term.var "x") (Term.var "y")) [("x", Term.var "a")]
      = Term.app (Term.var "a") (Term.var "y") := by
  decide

/-- Claim C10: with the empty correspondence, `is_eta_equiv` accepts
`λx.λy.x` versus `λy.λy.y`: the inner abstractions have equal parameters,
so the outer entry x ↦ y is kept and the bodies `x` and `y` correspond. -/
theorem c10_eta_rebind_keeps_entry :
    Term.is_eta_equiv (Term.fn "x" (Term.fn "y" (Term.var "x")))
      (Term.fn "y" (Term.fn "y" (Term.var "y"))) [] = true := by
  decide

/-- Claim C5: each of the malformed inputs `)`, `(a`, `λ.x`, `x =`,
`run step` parses to the ERROR mode bit with a non-empty message.  The
embedding of `parse` is total — every pop and index of the Python loop is
guarded, as the walk in `asLoop` makes explicit — so no input raises an
uncaught exception. -/
theorem c5_malformed_inputs :
    (parse ")" = (POut.errP ("Syntax error: unexpected " ++ q ")"), 8)
      ∧ ("Syntax error: unexpected " ++ q ")") ≠ "")
    ∧ (parse "(a" = (POut.errP ("Syntax error: unmatched " ++ q "("), 8)
      ∧ ("Syntax error: unmatched " ++ q "(") ≠ "")
    ∧ (parse "λ.x" = (POut.errP ("Syntax error: " ++ q "λ" ++ " followed by " ++ q "."), 8)
      ∧ ("Syntax error: " ++ q "λ" ++ " followed by " ++ q ".") ≠ "")
    ∧ (parse "x =" = (POut.errP ("Syntax error: unexpected " ++ q "="), 8)
      ∧ ("Syntax error: unexpected " ++ q "=") ≠ "")
    ∧ (parse "run step" = (POut.errP ("Syntax error: unexpected " ++ q "run"), 8)
      ∧ ("Syntax error: unexpected " ++ q "run") ≠ "") := by
  refine ⟨⟨by decide, by decide⟩, ⟨by decide, by decide⟩, ⟨by decide, by decide⟩,
    ⟨by decide, by decide⟩, ⟨by decide, by decide⟩⟩

/-- Claim C6: the multi-argument sugar `λx y.x` parses to the same tree
as `λx.λy.x` — the nested single-parameter abstractions — with mode NONE. -/
theorem c6_multiarg_sugar :
    parse "λx y.x" = parse "λx.λy.x"
    ∧ parse "λx y.x" = (POut.tmP (Term.fn "x" (Term.fn "y" (Term.var "x"))), 0) := by
  refine ⟨by decide, by decide⟩

/-- Claim C8: the empty input and the input `()` both parse to Python
`None` with mode NONE — accepted, no error bit, no term. -/
theorem c8_empty_and_unit_parse :
    parse "" = (POut.noneP, 0) ∧ parse "()" = (POut.noneP, 0) := by
  refine ⟨by decide, by decide⟩

/-- Claim C9: `x = y = z` parses without the ERROR bit: SET mode (2) with
the Application-shaped carrier `Application(y, z)` — the earlier binding
target `x` is silently discarded when the second `=` replaces
`var_name`. -/
theorem c9_double_set_discards :
    parse "x = y = z"
      = (POut.tmP (Term.app (Term.var "y") (Term.var "z")), LAMBDA_MODE_SET) := by
  decide
